import Mathlib

/-!
Verification of the graph-aware retrieval service in `main.py`.

The Python program is a Flask façade over two external collaborators
(an embedding API and a vector store).  The collaborators are modelled as
function parameters (`embed`, `query`, the store's stats value, and an
enumeration of a string set standing for Python's set-iteration order);
everything else is translated from the source:

  * `extract_obsidian_links`  — the regex scan
    `re.findall(r'\x5b\x5b([^\x5d|]+)(?:\|[^\x5d]+)?\x5d\x5d', text)`
    followed by `list(set(link.strip() for link in links))`;
  * `procMatches` / `search_linked_notes` — the nested loops of
    `search_linked_notes` (the inner loop over the matches of one note name is
    split into the helper `procMatches`);
  * `resolveTopK`, `follow_links_of`, `retrieve_db` — the `/retrieve_db`
    handler.

Python floats are modelled as rationals; Python `str.lower`, `str.strip`
and `int()` are modelled on their ASCII fragment (Unicode case folding,
Unicode digits and Unicode whitespace are not modelled — no stored claim
depends on them).
-/

/-- ASCII whitespace stripped by Python's `str.strip()` (space, tab,
newline, carriage return, vertical tab, form feed). -/
def isPySpace (c : Char) : Bool :=
  c = ' ' || c = '\t' || c = '\n' || c = '\r' || c.toNat = 11 || c.toNat = 12

/-- Python `str.strip()` on a character list. -/
def stripChars (cs : List Char) : List Char :=
  ((cs.dropWhile isPySpace).reverse.dropWhile isPySpace).reverse

/-- ASCII case folding of one character (`str.lower`, ASCII fragment). -/
def lowerChar (c : Char) : Char :=
  if 'A' ≤ c ∧ c ≤ 'Z' then Char.ofNat (c.toNat + 32) else c

/-- Python `str.lower()` on a character list (ASCII fragment). -/
def pyLower (cs : List Char) : List Char :=
  cs.map lowerChar

def isAsciiDigit (c : Char) : Bool :=
  '0' ≤ c && c ≤ '9'

/-- After a leading digit, `int()` accepts digits with single underscores
strictly between digits. -/
def digitsRest : List Char → Bool
  | [] => true
  | '_' :: c :: t => isAsciiDigit c && digitsRest t
  | '_' :: [] => false
  | c :: t => isAsciiDigit c && digitsRest t

/-- A valid `int()` digit body: nonempty, starts with a digit, single
underscores only between digits. -/
def pyDigitsOk : List Char → Bool
  | [] => false
  | c :: t => isAsciiDigit c && digitsRest t

def digitsToNat (ds : List Char) : Nat :=
  (ds.filter (fun c => c ≠ '_')).foldl (fun a c => 10 * a + (c.toNat - 48)) 0

/-- Python `int(s)` (ASCII fragment): optional surrounding whitespace,
optional sign, digits with underscore grouping; `none` models
`ValueError`. -/
def pyToInt (s : List Char) : Option Int :=
  match stripChars s with
  | '+' :: ds => if pyDigitsOk ds then some (digitsToNat ds) else none
  | '-' :: ds => if pyDigitsOk ds then some (-(digitsToNat ds : Int)) else none
  | ds => if pyDigitsOk ds then some (digitsToNat ds) else none

/-- `begWith p s` holds when `p` begins `s` (used for the substring test of
Python's `in` operator). -/
def begWith : List Char → List Char → Bool
  | [], _ => true
  | _ :: _, [] => false
  | a :: p, b :: s => a = b && begWith p s

/-- Python's `pat in s` substring test. -/
def isSubstrList (p : List Char) : List Char → Bool
  | [] => p.isEmpty
  | s@(_ :: t) => begWith p s || isSubstrList p t

/-! ### The link extractor

`extract_obsidian_links` runs
`re.findall(r'\x5b\x5b([^\x5d|]+)(?:\|[^\x5d]+)?\x5d\x5d', text)`.
The pattern has no fruitful backtracking: the name is a maximal nonempty
run of characters other than `]` and `|`, the optional alias a maximal
nonempty run of characters other than `]`, each followed by a character on
which no shorter run could resume, so the greedy scan below is exact.
`findall` takes leftmost matches and continues after each match
(non-overlapping); the scanner advances one character on failure.  A fuel
of `cs.length` suffices because every step consumes at least one
character. -/

def nameChar (c : Char) : Bool :=
  !(c = ']' || c = '|')

def aliasChar (c : Char) : Bool :=
  !(c = ']')

/-- One attempt to match the wiki-link pattern at the head of the input;
returns the captured name and the suffix after the match. -/
def tryMatch : List Char → Option (List Char × List Char)
  | '[' :: '[' :: rest =>
    let nm := rest.takeWhile nameChar
    let r1 := rest.dropWhile nameChar
    if nm = [] then none
    else
      match r1 with
      | ']' :: ']' :: after => some (nm, after)
      | '|' :: r2 =>
        let als := r2.takeWhile aliasChar
        let r3 := r2.dropWhile aliasChar
        if als = [] then none
        else
          match r3 with
          | ']' :: ']' :: after => some (nm, after)
          | _ => none
      | _ => none
  | _ => none

/-- Fueled scan of the whole text for pattern matches, leftmost first,
non-overlapping, exactly as `re.findall` does. -/
def findMatchesF : Nat → List Char → List (List Char)
  | 0, _ => []
  | _ + 1, [] => []
  | f + 1, c :: t =>
    match tryMatch (c :: t) with
    | some p => p.1 :: findMatchesF f p.2
    | none => findMatchesF f t

def findMatches (cs : List Char) : List (List Char) :=
  findMatchesF cs.length cs

/-- `extract_obsidian_links(text)`: the distinct stripped captured names.
The Python function returns `list(set(...))`; the spec fixes set
semantics, so the model returns the `Finset`. -/
def extract_obsidian_links (text : String) : Finset String :=
  ((findMatches text.data).map (fun raw => String.mk (stripChars raw))).toFinset

/-- A wiki-link marker of the source pattern's shape occurring at position
`pre.length`: either `[[raw]]` or `[[raw|als]]` with `als` a nonempty run
of non-`]` characters. -/
def MarkerAt (cs pre raw post : List Char) : Prop :=
  cs = pre ++ ('[' :: '[' :: (raw ++ ']' :: ']' :: post)) ∨
  ∃ als, als ≠ [] ∧ (∀ c ∈ als, aliasChar c = true) ∧
    cs = pre ++ ('[' :: '[' :: (raw ++ '|' :: (als ++ ']' :: ']' :: post)))

/-- The text contains a wiki-link marker with a well-formed name. -/
def HasMarker (cs : List Char) : Prop :=
  ∃ pre raw post, raw ≠ [] ∧ (∀ c ∈ raw, nameChar c = true) ∧ MarkerAt cs pre raw post

/-! ### Data model -/

/-- One raw match from `query_similar_texts`: id, score and the stored
text (`match.get('metadata', \x7b\x7d).get('text','')`). -/
structure Match where
  id : String
  score : ℚ
  text : String
deriving DecidableEq, Repr

/-- A match after the handler tags it: `source` is `"primary"` or
`"linked"`, `linked_from` present only on linked results. -/
structure SearchResult where
  id : String
  score : ℚ
  text : String
  source : String
  linked_from : Option String
deriving DecidableEq, Repr

/-- Tagging done by `search_linked_notes` on acceptance. -/
def mkLinked (m : Match) (note_name : String) : SearchResult :=
  ⟨m.id, m.score, m.text, "linked", some note_name⟩

/-- Tagging done by the handler on every primary result. -/
def tagPrimary (m : Match) : SearchResult :=
  ⟨m.id, m.score, m.text, "primary", none⟩

/-- The query parameters of `/retrieve_db` (`request.args.get` yields
`none` for an absent parameter). -/
structure RetrieveRequest where
  text : Option String
  top_k : Option String
  follow_links : Option String
deriving DecidableEq, Repr

/-- The handler's possible responses: an error with its HTTP status, the
flat list (`follow_links` false), or the structured object. -/
inductive RetrieveResponse where
  | err (code : Nat) (msg : String)
  | flat (results : List SearchResult)
  | full (primary_results linked_results : List SearchResult)
      (extracted_links : List String) (hint : String)
deriving DecidableEq, Repr

/-- The fixed advisory string of the structured response. -/
def hintText : String :=
  "Die linked_results stammen aus Notes, die in den primary_results verlinkt wurden. Prüfe ob diese zusätzlichen Infos für die Anfrage relevant sind."

/-! ### The linked-note resolver

`search_linked_notes(linked_note_names, original_query, already_found_ids)`.
The collaborators are parameters: `embed` models `get_embedding_vector`
(`none` = failure), `query` models `query_similar_texts` with its `top_k`
argument.  `procMatches` is the loop body for one note name; the pair
returned by both functions is (appended results, final id set) — the
Python version mutates `already_found_ids` in place. -/

def procMatches (note_name : String) : List Match → Finset String →
    List SearchResult × Finset String
  | [], ids => ([], ids)
  | m :: rest, ids =>
    if m.id ∈ ids then
      procMatches note_name rest ids
    else if (7 : ℚ) / 10 < m.score ∨
        isSubstrList (pyLower note_name.data) (pyLower m.text.data) = true then
      let res := procMatches note_name rest (insert m.id ids)
      (mkLinked m note_name :: res.1, res.2)
    else
      procMatches note_name rest ids

def search_linked_notes {α : Type} (embed : String → Option α)
    (query : α → Int → List Match) :
    List String → String → Finset String → List SearchResult × Finset String
  | [], _, ids => ([], ids)
  | note_name :: rest, original_query, ids =>
    match embed note_name with
    | none => search_linked_notes embed query rest original_query ids
    | some v =>
      let p := procMatches note_name (query v 3) ids
      let s := search_linked_notes embed query rest original_query p.2
      (p.1 ++ s.1, s.2)

/-! ### The retrieval orchestrator -/

/-- Line 130: `request.args.get('follow_links', 'true').lower() == 'true'`. -/
def follow_links_of (p : Option String) : Bool :=
  decide (pyLower (p.getD "true").data = "true".data)

/-- Lines 132–143: resolution of `top_k`.  `if top_k_param:` is falsy for
both an absent parameter and the empty string; `"all"` (case-insensitive)
reads the store's `total_vector_count` (with the literal default 10 of
`stats.get('total_vector_count', 10)`); otherwise `int()` or a 400. -/
def resolveTopK (statsTotal : Option Nat) (top_k_param : Option String) :
    Except String Int :=
  match top_k_param with
  | none => .ok 10
  | some s =>
    if s = "" then .ok 10
    else if pyLower s.data = "all".data then .ok (statsTotal.getD 10)
    else
      match pyToInt s.data with
      | some k => .ok k
      | none => .error "Invalid top_k parameter"

/-- The `/retrieve_db` handler.  `enumLinks` models Python's set-iteration
order when the handler passes `list(all_links)` to the resolver. -/
def retrieve_db {α : Type} (embed : String → Option α)
    (query : α → Int → List Match) (statsTotal : Option Nat)
    (enumLinks : Finset String → List String) (req : RetrieveRequest) :
    RetrieveResponse :=
  match req.text with
  | none => .err 400 "No text provided"
  | some t =>
    if t = "" then .err 400 "No text provided"
    else
      let follow_links := follow_links_of req.follow_links
      match resolveTopK statsTotal req.top_k with
      | .error msg => .err 400 msg
      | .ok top_k =>
        match embed t with
        | none => .err 500 "Failed to generate embeddings"
        | some v =>
          let primary_results := (query v top_k).map tagPrimary
          if follow_links = false then .flat primary_results
          else
            let all_links : Finset String :=
              primary_results.foldl
                (fun s r => s ∪ extract_obsidian_links r.text) ∅
            let already_found_ids : Finset String :=
              (primary_results.map SearchResult.id).toFinset
            let linked_results :=
              if all_links = ∅ then []
              else (search_linked_notes embed query (enumLinks all_links) t
                already_found_ids).1
            .full primary_results linked_results (enumLinks all_links) hintText

/-! ### Concrete collaborators used to exercise the theorems -/

def embedC : String → Option Nat := fun _ => some 0

def queryC : Nat → Int → List Match := fun _ _ => []

def enumC : Finset String → List String := fun s => s.sort (· ≤ ·)

def embedN : String → Option Nat := fun _ => none

/-! ### Helper lemmas -/

theorem begWith_iff (p s : List Char) : begWith p s = true ↔ ∃ r, s = p ++ r := by
  induction p generalizing s with
  | nil => simp [begWith]
  | cons a p ih =>
    cases s with
    | nil => simp [begWith]
    | cons b t =>
      simp only [begWith, Bool.and_eq_true, decide_eq_true_eq, ih, List.cons_append,
        List.cons.injEq]
      constructor
      · rintro ⟨rfl, r, rfl⟩
        exact ⟨r, rfl, rfl⟩
      · rintro ⟨r, rfl, rfl⟩
        exact ⟨rfl, r, rfl⟩

theorem isSubstrList_iff (p s : List Char) :
    isSubstrList p s = true ↔ ∃ l r, s = l ++ p ++ r := by
  induction s with
  | nil =>
    simp only [isSubstrList, List.isEmpty_iff]
    constructor
    · rintro rfl
      exact ⟨[], [], rfl⟩
    · rintro ⟨l, r, h⟩
      rcases List.append_eq_nil.mp h.symm with ⟨h1, h2⟩
      rcases List.append_eq_nil.mp h1 with ⟨-, h3⟩
      exact h3
  | cons b t ih =>
    simp only [isSubstrList, Bool.or_eq_true, begWith_iff, ih]
    constructor
    · rintro (⟨r, h⟩ | ⟨l, r, rfl⟩)
      · exact ⟨[], r, by simpa using h⟩
      · exact ⟨b :: l, r, rfl⟩
    · rintro ⟨l, r, h⟩
      cases l with
      | nil =>
        left
        exact ⟨r, by simpa using h⟩
      | cons x l =>
        right
        rw [List.cons_append, List.cons_append] at h
        injection h with h1 h2
        exact ⟨l, r, h2⟩

theorem procMatches_spec (n : String) (ms : List Match) (ids : Finset String) :
    (procMatches n ms ids).2
        = ids ∪ ((procMatches n ms ids).1.map SearchResult.id).toFinset
    ∧ ((procMatches n ms ids).1.map SearchResult.id).Nodup
    ∧ ∀ r ∈ (procMatches n ms ids).1,
        r.id ∉ ids ∧ r.source = "linked" ∧ r.linked_from = some n := by
  induction ms generalizing ids with
  | nil => simp [procMatches]
  | cons m rest ih =>
    by_cases h1 : m.id ∈ ids
    · simpa [procMatches, h1] using ih ids
    · by_cases h2 : (7 : ℚ) / 10 < m.score ∨
          isSubstrList (pyLower n.data) (pyLower m.text.data) = true
      · obtain ⟨ih1, ih2, ih3⟩ := ih (insert m.id ids)
        simp only [procMatches, if_neg h1, if_pos h2]
        refine ⟨?_, ?_, ?_⟩
        · rw [ih1]
          ext x
          simp only [List.map_cons, List.toFinset_cons, Finset.mem_union,
            Finset.mem_insert, List.mem_toFinset]
          tauto
        · simp only [List.map_cons, List.nodup_cons]
          refine ⟨?_, ih2⟩
          intro hx
          rcases List.mem_map.mp hx with ⟨r, hr, hrid⟩
          exact (ih3 r hr).1 (by simp [mkLinked, hrid])
        · intro r hr
          rcases List.mem_cons.mp hr with rfl | hr'
          · exact ⟨h1, rfl, rfl⟩
          · obtain ⟨ha, hb, hc⟩ := ih3 r hr'
            exact ⟨fun hx => ha (Finset.mem_insert_of_mem hx), hb, hc⟩
      · simpa [procMatches, h1, h2] using ih ids

theorem search_spec {α : Type} (embed : String → Option α)
    (query : α → Int → List Match) (names : List String) (oq : String)
    (ids : Finset String) :
    (search_linked_notes embed query names oq ids).2
        = ids ∪ ((search_linked_notes embed query names oq ids).1.map
            SearchResult.id).toFinset
    ∧ ((search_linked_notes embed query names oq ids).1.map
        SearchResult.id).Nodup
    ∧ ∀ r ∈ (search_linked_notes embed query names oq ids).1,
        r.id ∉ ids ∧ r.source = "linked" := by
  induction names generalizing ids with
  | nil => simp [search_linked_notes]
  | cons n rest ih =>
    cases hemb : embed n with
    | none => simpa [search_linked_notes, hemb] using ih ids
    | some v =>
      obtain ⟨p1, p2, p3⟩ := procMatches_spec n (query v 3) ids
      obtain ⟨s1, s2, s3⟩ := ih (procMatches n (query v 3) ids).2
      simp only [search_linked_notes, hemb]
      refine ⟨?_, ?_, ?_⟩
      · rw [s1, p1]
        ext x
        simp only [Finset.mem_union, List.map_append, List.toFinset_append,
          List.mem_toFinset]
        tauto
      · rw [List.map_append, List.nodup_append]
        refine ⟨p2, s2, ?_⟩
        intro x hx hx'
        rcases List.mem_map.mp hx' with ⟨r, hr, rfl⟩
        have := (s3 r hr).1
        rw [p1] at this
        exact this (Finset.mem_union_right _ (List.mem_toFinset.mpr hx))
      · intro r hr
        rcases List.mem_append.mp hr with hr' | hr'
        · exact ⟨(p3 r hr').1, (p3 r hr').2.1⟩
        · refine ⟨?_, (s3 r hr').2⟩
          intro hx
          have := (s3 r hr').1
          rw [p1] at this
          exact this (Finset.mem_union_left _ hx)

theorem search_oq_irrel {α : Type} (embed : String → Option α)
    (query : α → Int → List Match) (names : List String) (oq1 oq2 : String)
    (ids : Finset String) :
    search_linked_notes embed query names oq1 ids
      = search_linked_notes embed query names oq2 ids := by
  induction names generalizing ids with
  | nil => rfl
  | cons n rest ih =>
    cases hemb : embed n with
    | none => simp only [search_linked_notes, hemb]; exact ih ids
    | some v => simp only [search_linked_notes, hemb]; rw [ih]

theorem search_top3 {α : Type} (embed : String → Option α)
    (q1 q2 : α → Int → List Match) (hq : ∀ v, q1 v 3 = q2 v 3)
    (names : List String) (oq : String) (ids : Finset String) :
    search_linked_notes embed q1 names oq ids
      = search_linked_notes embed q2 names oq ids := by
  induction names generalizing ids with
  | nil => rfl
  | cons n rest ih =>
    cases hemb : embed n with
    | none => simp only [search_linked_notes, hemb]; exact ih ids
    | some v => simp only [search_linked_notes, hemb]; rw [hq, ih]

theorem search_skip_failed {α : Type} (embed : String → Option α)
    (query : α → Int → List Match) (ns1 : List String) (bad : String)
    (ns2 : List String) (oq : String) (ids : Finset String)
    (hbad : embed bad = none) :
    search_linked_notes embed query (ns1 ++ bad :: ns2) oq ids
      = search_linked_notes embed query (ns1 ++ ns2) oq ids := by
  induction ns1 generalizing ids with
  | nil => simp only [List.nil_append, search_linked_notes, hbad]
  | cons a t ih =>
    cases hemb : embed a with
    | none =>
      simp only [List.cons_append, search_linked_notes, hemb, List.append_eq]
      exact ih ids
    | some v =>
      simp only [List.cons_append, search_linked_notes, hemb, List.append_eq]
      rw [ih]

theorem procMatches_sublist (n : String) (ms : List Match) (ids : Finset String) :
    ((procMatches n ms ids).1.map (fun r => (r.id, r.score, r.text))).Sublist
      (ms.map (fun m => (m.id, m.score, m.text))) := by
  induction ms generalizing ids with
  | nil => simp [procMatches]
  | cons m rest ih =>
    by_cases h1 : m.id ∈ ids
    · simp only [procMatches, if_pos h1, List.map_cons]
      exact (ih ids).cons _
    · by_cases h2 : (7 : ℚ) / 10 < m.score ∨
          isSubstrList (pyLower n.data) (pyLower m.text.data) = true
      · simp only [procMatches, if_neg h1, if_pos h2, List.map_cons, mkLinked]
        exact (ih (insert m.id ids)).cons₂ _
      · simp only [procMatches, if_neg h1, if_neg h2, List.map_cons]
        exact (ih ids).cons _

theorem search_blocks {α : Type} (embed : String → Option α)
    (query : α → Int → List Match) (names : List String) (oq : String)
    (ids : Finset String) :
    ∃ counts : List Nat, counts.length = names.length ∧
      (search_linked_notes embed query names oq ids).1.map SearchResult.linked_from
        = ((names.zip counts).map
            (fun p => List.replicate p.2 (some p.1))).flatten := by
  induction names generalizing ids with
  | nil => exact ⟨[], rfl, by simp [search_linked_notes]⟩
  | cons n rest ih =>
    cases hemb : embed n with
    | none =>
      obtain ⟨cs, hlen, hmap⟩ := ih ids
      refine ⟨0 :: cs, by simp [hlen], ?_⟩
      simp [search_linked_notes, hemb, hmap]
    | some v =>
      obtain ⟨cs, hlen, hmap⟩ := ih (procMatches n (query v 3) ids).2
      refine ⟨(procMatches n (query v 3) ids).1.length :: cs, by simp [hlen], ?_⟩
      simp only [search_linked_notes, hemb, List.map_append, hmap,
        List.zip_cons_cons, List.map_cons, List.flatten_cons]
      congr 1
      have hconst : ∀ b ∈ (procMatches n (query v 3) ids).1.map
          SearchResult.linked_from, b = some n := by
        intro b hb
        rcases List.mem_map.mp hb with ⟨r, hr, rfl⟩
        exact ((procMatches_spec n (query v 3) ids).2.2 r hr).2.2
      have hrep := List.eq_replicate_of_mem hconst
      rwa [List.length_map] at hrep

theorem tryMatch_sound (cs nm after : List Char)
    (h : tryMatch cs = some (nm, after)) :
    nm ≠ [] ∧ (∀ c ∈ nm, nameChar c = true) ∧
    (cs = '[' :: '[' :: (nm ++ ']' :: ']' :: after) ∨
     ∃ als, als ≠ [] ∧ (∀ c ∈ als, aliasChar c = true) ∧
       cs = '[' :: '[' :: (nm ++ '|' :: (als ++ ']' :: ']' :: after))) := by
  unfold tryMatch at h
  split at h
  case h_2 => exact absurd h (by simp)
  case h_1 rest =>
    dsimp only at h
    split at h
    case isTrue => exact absurd h (by simp)
    case isFalse hnm =>
      split at h
      next a heq =>
        injection h with h'
        injection h' with h1 h2
        subst h1
        subst h2
        refine ⟨hnm, fun c hc => List.mem_takeWhile_imp hc, Or.inl ?_⟩
        have h1' := List.takeWhile_append_dropWhile (p := nameChar) (l := rest)
        rw [heq] at h1'
        rw [h1']
      next r2 heq =>
        split at h
        case isTrue => exact absurd h (by simp)
        case isFalse hals =>
          split at h
          next a heq2 =>
            injection h with h'
            injection h' with h1 h2
            subst h1
            subst h2
            refine ⟨hnm, fun c hc => List.mem_takeWhile_imp hc, Or.inr ?_⟩
            refine ⟨r2.takeWhile aliasChar, hals,
              fun c hc => List.mem_takeWhile_imp hc, ?_⟩
            have h2' := List.takeWhile_append_dropWhile (p := aliasChar) (l := r2)
            rw [heq2] at h2'
            have h1' := List.takeWhile_append_dropWhile (p := nameChar) (l := rest)
            rw [heq] at h1'
            rw [h2', h1']
          next => exact absurd h (by simp)
      next => exact absurd h (by simp)

theorem MarkerAt_shift (xs cs pre raw post : List Char)
    (h : MarkerAt cs pre raw post) : MarkerAt (xs ++ cs) (xs ++ pre) raw post := by
  rcases h with h | ⟨als, h1, h2, h3⟩
  · left
    rw [h, List.append_assoc]
  · right
    exact ⟨als, h1, h2, by rw [h3, List.append_assoc]⟩

theorem findMatchesF_sound (f : Nat) : ∀ cs raw, raw ∈ findMatchesF f cs →
    raw ≠ [] ∧ (∀ c ∈ raw, nameChar c = true) ∧
      ∃ pre post, MarkerAt cs pre raw post := by
  induction f with
  | zero =>
    intro cs raw h
    simp [findMatchesF] at h
  | succ f ih =>
    intro cs raw h
    cases cs with
    | nil => simp [findMatchesF] at h
    | cons c t =>
      rw [findMatchesF] at h
      cases htm : tryMatch (c :: t) with
      | none =>
        rw [htm] at h
        obtain ⟨h1, h2, pre, post, hm⟩ := ih t raw h
        exact ⟨h1, h2, [c] ++ pre, post, MarkerAt_shift [c] t pre raw post hm⟩
      | some p =>
        rw [htm] at h
        have htm' : tryMatch (c :: t) = some (p.1, p.2) := by rw [htm]
        obtain ⟨g1, g2, g3⟩ := tryMatch_sound _ _ _ htm'
        rcases List.mem_cons.mp h with rfl | h'
        · refine ⟨g1, g2, [], p.2, ?_⟩
          rcases g3 with g3 | ⟨als, a1, a2, a3⟩
          · left
            simpa using g3
          · right
            exact ⟨als, a1, a2, by simpa using a3⟩
        · obtain ⟨h1, h2, pre, post, hm⟩ := ih p.2 raw h'
          refine ⟨h1, h2, ?_⟩
          rcases g3 with g3 | ⟨als, a1, a2, a3⟩
          · refine ⟨('[' :: '[' :: (p.1 ++ [']', ']'])) ++ pre, post, ?_⟩
            have hshift := MarkerAt_shift ('[' :: '[' :: (p.1 ++ [']', ']'])) p.2
              pre raw post hm
            have heq : '[' :: '[' :: (p.1 ++ ']' :: ']' :: p.2)
                = ('[' :: '[' :: (p.1 ++ [']', ']'])) ++ p.2 := by
              simp
            rw [g3, heq]
            exact hshift
          · refine ⟨('[' :: '[' :: (p.1 ++ '|' :: (als ++ [']', ']']))) ++ pre,
              post, ?_⟩
            have hshift := MarkerAt_shift
              ('[' :: '[' :: (p.1 ++ '|' :: (als ++ [']', ']']))) p.2 pre raw post hm
            have heq : '[' :: '[' :: (p.1 ++ '|' :: (als ++ ']' :: ']' :: p.2))
                = ('[' :: '[' :: (p.1 ++ '|' :: (als ++ [']', ']']))) ++ p.2 := by
              simp
            rw [a3, heq]
            exact hshift

theorem extract_mem_sound (text nm : String)
    (h : nm ∈ extract_obsidian_links text) :
    ∃ raw pre post, nm = String.mk (stripChars raw) ∧ raw ≠ [] ∧
      (∀ c ∈ raw, nameChar c = true) ∧ MarkerAt text.data pre raw post := by
  rw [extract_obsidian_links, List.mem_toFinset, List.mem_map] at h
  obtain ⟨raw, hraw, hstr⟩ := h
  obtain ⟨h1, h2, pre, post, hm⟩ := findMatchesF_sound _ _ _ hraw
  exact ⟨raw, pre, post, hstr.symm, h1, h2, hm⟩

theorem no_bracket_no_marker (cs : List Char) (h : '[' ∉ cs) : ¬ HasMarker cs := by
  rintro ⟨pre, raw, post, -, -, hm | ⟨als, -, -, hm⟩⟩ <;>
    · apply h
      rw [hm]
      simp

theorem retrieve_shape {α : Type} (embed : String → Option α)
    (query : α → Int → List Match) (stats : Option Nat)
    (enumL : Finset String → List String) (req : RetrieveRequest)
    (t : String) (v : α) (k : Int) (h1 : req.text = some t) (h2 : t ≠ "")
    (h3 : resolveTopK stats req.top_k = .ok k) (h4 : embed t = some v) :
    (follow_links_of req.follow_links = false →
      retrieve_db embed query stats enumL req
        = .flat ((query v k).map tagPrimary))
    ∧ (follow_links_of req.follow_links = true →
      ∃ l e, retrieve_db embed query stats enumL req
        = .full ((query v k).map tagPrimary) l e hintText) := by
  constructor <;> intro hf <;>
    simp [retrieve_db, h1, h2, h3, h4, hf]

/-- C1: in linked-note resolution a candidate whose id is not already seen
is kept iff its score strictly exceeds 0.7 or the lower-cased note name
occurs as a substring of the lower-cased match text; a 0.9-score match
with no textual occurrence is accepted, a 0.5-score match with a textual
occurrence is accepted, a 0.5-score match without one is rejected. -/
theorem relevance_gate_single (n : String) (m : Match) (ids : Finset String)
    (h : m.id ∉ ids) :
    (((7 : ℚ) / 10 < m.score ∨
        ∃ l r, pyLower m.text.data = l ++ pyLower n.data ++ r) →
      procMatches n [m] ids = ([mkLinked m n], insert m.id ids))
    ∧ (¬((7 : ℚ) / 10 < m.score ∨
        ∃ l r, pyLower m.text.data = l ++ pyLower n.data ++ r) →
      procMatches n [m] ids = ([], ids))
    ∧ (procMatches "Alpha" [⟨"a1", 9 / 10, "no mention"⟩] ∅).1
        = [⟨"a1", 9 / 10, "no mention", "linked", some "Alpha"⟩]
    ∧ (procMatches "Alpha" [⟨"a2", 1 / 2, "about alpha things"⟩] ∅).1
        = [⟨"a2", 1 / 2, "about alpha things", "linked", some "Alpha"⟩]
    ∧ (procMatches "Alpha" [⟨"a3", 1 / 2, "no mention"⟩] ∅).1 = [] := by
  have key : ∀ (n' : String) (m' : Match),
      isSubstrList (pyLower n'.data) (pyLower m'.text.data) = true
        ↔ ∃ l r, pyLower m'.text.data = l ++ pyLower n'.data ++ r :=
    fun n' m' => isSubstrList_iff (pyLower n'.data) (pyLower m'.text.data)
  have pos : ∀ (n' : String) (m' : Match) (ids' : Finset String), m'.id ∉ ids' →
      ((7 : ℚ) / 10 < m'.score ∨
        ∃ l r, pyLower m'.text.data = l ++ pyLower n'.data ++ r) →
      procMatches n' [m'] ids' = ([mkLinked m' n'], insert m'.id ids') := by
    intro n' m' ids' h' hg
    have hg' : (7 : ℚ) / 10 < m'.score ∨
        isSubstrList (pyLower n'.data) (pyLower m'.text.data) = true := by
      rcases hg with hs | hsub
      exacts [Or.inl hs, Or.inr ((key n' m').mpr hsub)]
    simp [procMatches, h', hg']
  have negp : ∀ (n' : String) (m' : Match) (ids' : Finset String), m'.id ∉ ids' →
      ¬((7 : ℚ) / 10 < m'.score ∨
        ∃ l r, pyLower m'.text.data = l ++ pyLower n'.data ++ r) →
      procMatches n' [m'] ids' = ([], ids') := by
    intro n' m' ids' h' hg
    have hg' : ¬((7 : ℚ) / 10 < m'.score ∨
        isSubstrList (pyLower n'.data) (pyLower m'.text.data) = true) := by
      rintro (hs | hsub)
      · exact hg (Or.inl hs)
      · exact hg (Or.inr ((key n' m').mp hsub))
    simp [procMatches, h', hg']
  refine ⟨pos n m ids h, negp n m ids h, ?_, ?_, ?_⟩
  · rw [pos "Alpha" ⟨"a1", 9 / 10, "no mention"⟩ ∅ (by simp)
      (Or.inl (by norm_num))]
    rfl
  · rw [pos "Alpha" ⟨"a2", 1 / 2, "about alpha things"⟩ ∅ (by simp)
      (Or.inr ((key "Alpha" ⟨"a2", 1 / 2, "about alpha things"⟩).mp (by decide)))]
    rfl
  · rw [negp "Alpha" ⟨"a3", 1 / 2, "no mention"⟩ ∅ (by simp) ?_]
    · rintro (hs | hsub)
      · norm_num at hs
      · exact absurd ((key "Alpha" ⟨"a3", 1 / 2, "no mention"⟩).mpr hsub)
          (by decide)

/-- Witness for the gate theorem at a concrete accepted input. -/
theorem relevance_gate_single_app :
    (("w1" : String) ∉ (∅ : Finset String)) ∧
    procMatches "Note" [⟨"w1", 1, "t"⟩] ∅
      = ([mkLinked ⟨"w1", 1, "t"⟩ "Note"], insert "w1" ∅) := by
  refine ⟨by decide, ?_⟩
  exact (relevance_gate_single "Note" ⟨"w1", 1, "t"⟩ ∅ (by decide)).1
    (Or.inl (by norm_num))

/-- C2: no resolver result has an id that was in the already-seen set at
entry, every returned id is in the set at completion, and the combined
primary-plus-linked response has pairwise distinct ids. -/
theorem resolver_dedup_invariant {α : Type} (embed : String → Option α)
    (query : α → Int → List Match) (names : List String) (oq : String)
    (pids : List String) :
    (∀ r ∈ (search_linked_notes embed query names oq pids.toFinset).1,
        r.id ∉ pids.toFinset)
    ∧ (∀ r ∈ (search_linked_notes embed query names oq pids.toFinset).1,
        r.id ∈ (search_linked_notes embed query names oq pids.toFinset).2)
    ∧ ((∀ v k, ((query v k).map Match.id).Nodup) → pids.Nodup →
        (pids ++ (search_linked_notes embed query names oq pids.toFinset).1.map
          SearchResult.id).Nodup) := by
  obtain ⟨s1, s2, s3⟩ := search_spec embed query names oq pids.toFinset
  refine ⟨fun r hr => (s3 r hr).1, fun r hr => ?_, fun _ hnd => ?_⟩
  · rw [s1]
    exact Finset.mem_union_right _
      (List.mem_toFinset.mpr (List.mem_map_of_mem _ hr))
  · rw [List.nodup_append]
    refine ⟨hnd, s2, fun x hx hx' => ?_⟩
    rcases List.mem_map.mp hx' with ⟨r, hr, rfl⟩
    exact (s3 r hr).1 (List.mem_toFinset.mpr hx)

/-- Witness for the dedup invariant at a concrete input. -/
theorem resolver_dedup_invariant_app :
    (∀ v k, ((queryC v k).map Match.id).Nodup) ∧ (["p"] : List String).Nodup ∧
    ((["p"] : List String) ++ (search_linked_notes embedC queryC ["n"] "q"
      (["p"] : List String).toFinset).1.map SearchResult.id).Nodup := by
  refine ⟨fun v k => by simp [queryC], by decide, ?_⟩
  exact (resolver_dedup_invariant embedC queryC ["n"] "q" ["p"]).2.2
    (fun v k => by simp [queryC]) (by decide)

/-- C3: a primary-phase embedding failure fails the whole request with the
500 embedding error, while an embedding failure for one linked note name
only removes that name from the resolution pass. -/
theorem embedding_failure_semantics :
    (∀ (α : Type) (embed : String → Option α) (query : α → Int → List Match)
        (stats : Option Nat) (enumL : Finset String → List String)
        (req : RetrieveRequest) (t : String) (k : Int),
      req.text = some t → t ≠ "" → resolveTopK stats req.top_k = .ok k →
      embed t = none →
      retrieve_db embed query stats enumL req
        = .err 500 "Failed to generate embeddings")
    ∧ (∀ (α : Type) (embed : String → Option α) (query : α → Int → List Match)
        (ns1 : List String) (bad : String) (ns2 : List String) (oq : String)
        (ids : Finset String), embed bad = none →
      search_linked_notes embed query (ns1 ++ bad :: ns2) oq ids
        = search_linked_notes embed query (ns1 ++ ns2) oq ids) := by
  constructor
  · intro α embed query stats enumL req t k h1 h2 h3 h4
    simp [retrieve_db, h1, h2, h3, h4]
  · intro α embed query ns1 bad ns2 oq ids hbad
    exact search_skip_failed embed query ns1 bad ns2 oq ids hbad

/-- Witness for the embedding-failure semantics at concrete inputs. -/
theorem embedding_failure_semantics_app :
    (embedN "q" = none ∧ resolveTopK none none = .ok 10 ∧ ("q" : String) ≠ "") ∧
    retrieve_db embedN queryC none enumC ⟨some "q", none, none⟩
      = .err 500 "Failed to generate embeddings" := by
  refine ⟨⟨rfl, rfl, by decide⟩, ?_⟩
  exact embedding_failure_semantics.1 Nat embedN queryC none enumC
    ⟨some "q", none, none⟩ "q" 10 rfl (by decide) rfl rfl

/-- C5: with follow_links false the response is the flat primary list
(every result tagged primary, no extraction fields); with follow_links
true it is the structured object with primary results, linked results,
extracted links and the fixed hint string. -/
theorem follow_links_response_shape {α : Type} (embed : String → Option α)
    (query : α → Int → List Match) (stats : Option Nat)
    (enumL : Finset String → List String) (req : RetrieveRequest)
    (t : String) (v : α) (k : Int) (h1 : req.text = some t) (h2 : t ≠ "")
    (h3 : resolveTopK stats req.top_k = .ok k) (h4 : embed t = some v) :
    (follow_links_of req.follow_links = false →
      retrieve_db embed query stats enumL req
        = .flat ((query v k).map tagPrimary))
    ∧ (follow_links_of req.follow_links = true →
      ∃ l e, retrieve_db embed query stats enumL req
        = .full ((query v k).map tagPrimary) l e hintText) :=
  retrieve_shape embed query stats enumL req t v k h1 h2 h3 h4

/-- Witness for the response-shape theorem at a concrete flat request. -/
theorem follow_links_response_shape_app :
    ((⟨some "q", none, some "false"⟩ : RetrieveRequest).text = some "q"
      ∧ ("q" : String) ≠ "" ∧ resolveTopK none none = .ok 10
      ∧ embedC "q" = some 0
      ∧ follow_links_of (some "false") = false) ∧
    retrieve_db embedC queryC none enumC ⟨some "q", none, some "false"⟩
      = .flat ((queryC 0 10).map tagPrimary) := by
  refine ⟨⟨rfl, by decide, rfl, rfl, by decide⟩, ?_⟩
  exact (follow_links_response_shape embedC queryC none enumC
    ⟨some "q", none, some "false"⟩ "q" 0 10 rfl (by decide) rfl rfl).1 (by decide)

/-- C9: the resolver never uses the original query text — two calls
differing only in that argument return the same results and the same
final already-seen set. -/
theorem resolver_ignores_original_query {α : Type} (embed : String → Option α)
    (query : α → Int → List Match) (names : List String) (oq1 oq2 : String)
    (ids : Finset String) :
    search_linked_notes embed query names oq1 ids
      = search_linked_notes embed query names oq2 ids :=
  search_oq_irrel embed query names oq1 oq2 ids

/-- C8: only the top-3 behaviour of the similarity search matters to the
resolver; within one note name the accepted results keep the ranking
order of the matches (a sublist) and carry the linked tags; and the
output is grouped into blocks following note-name iteration order. -/
theorem resolver_top3_and_order :
    (∀ (α : Type) (embed : String → Option α) (q1 q2 : α → Int → List Match),
      (∀ v, q1 v 3 = q2 v 3) → ∀ (names : List String) (oq : String)
        (ids : Finset String),
      search_linked_notes embed q1 names oq ids
        = search_linked_notes embed q2 names oq ids)
    ∧ (∀ (n : String) (ms : List Match) (ids : Finset String),
      ((procMatches n ms ids).1.map (fun r => (r.id, r.score, r.text))).Sublist
        (ms.map (fun m => (m.id, m.score, m.text)))
      ∧ ∀ r ∈ (procMatches n ms ids).1,
          r.source = "linked" ∧ r.linked_from = some n)
    ∧ (∀ (α : Type) (embed : String → Option α)
        (query : α → Int → List Match) (names : List String) (oq : String)
        (ids : Finset String),
      ∃ counts : List Nat, counts.length = names.length ∧
        (search_linked_notes embed query names oq ids).1.map
            SearchResult.linked_from
          = ((names.zip counts).map
              (fun p => List.replicate p.2 (some p.1))).flatten) := by
  refine ⟨fun α e q1 q2 hq names oq ids => search_top3 e q1 q2 hq names oq ids,
    fun n ms ids => ⟨procMatches_sublist n ms ids, fun r hr =>
      ⟨((procMatches_spec n ms ids).2.2 r hr).2.1,
       ((procMatches_spec n ms ids).2.2 r hr).2.2⟩⟩,
    fun α e q names oq ids => search_blocks e q names oq ids⟩

/-- Witness for the ordering theorem: a concretely accepted result carries
the linked tags. -/
theorem resolver_top3_and_order_app :
    mkLinked ⟨"m1", 1, "tx"⟩ "n" ∈ (procMatches "n" [⟨"m1", 1, "tx"⟩] ∅).1 ∧
    (mkLinked ⟨"m1", 1, "tx"⟩ "n").source = "linked" ∧
    (mkLinked ⟨"m1", 1, "tx"⟩ "n").linked_from = some "n" := by
  have hmem : mkLinked ⟨"m1", 1, "tx"⟩ "n"
      ∈ (procMatches "n" [⟨"m1", 1, "tx"⟩] ∅).1 := by
    have hc : (7 : ℚ) / 10 < (1 : ℚ) ∨
        isSubstrList (pyLower "n".data) (pyLower "tx".data) = true :=
      Or.inl (by norm_num)
    simp [procMatches, hc]
  exact ⟨hmem, (resolver_top3_and_order.2.1 "n" [⟨"m1", 1, "tx"⟩] ∅).2 _ hmem⟩

/-- C10: follow_links is treated as true iff the parameter is absent or
case-insensitively equal to true; any other supplied value produces the
flat shape, never a 400. -/
theorem follow_links_parsing {α : Type} (embed : String → Option α)
    (query : α → Int → List Match) (stats : Option Nat)
    (enumL : Finset String → List String) (req : RetrieveRequest)
    (t : String) (v : α) (k : Int) (h1 : req.text = some t) (h2 : t ≠ "")
    (h3 : resolveTopK stats req.top_k = .ok k) (h4 : embed t = some v) :
    ((∃ rs, retrieve_db embed query stats enumL req = .flat rs)
      ∨ ∃ p l e hh, retrieve_db embed query stats enumL req = .full p l e hh)
    ∧ ((∃ rs, retrieve_db embed query stats enumL req = .flat rs)
        ↔ ∃ s, req.follow_links = some s ∧ pyLower s.data ≠ "true".data)
    ∧ follow_links_of none = true
    ∧ follow_links_of (some "True") = true
    ∧ follow_links_of (some "1") = false
    ∧ follow_links_of (some "yes") = false
    ∧ follow_links_of (some "True ") = false := by
  obtain ⟨hflat, hfull⟩ := retrieve_shape embed query stats enumL req t v k h1 h2 h3 h4
  have hiff : follow_links_of req.follow_links = false
      ↔ ∃ s, req.follow_links = some s ∧ pyLower s.data ≠ "true".data := by
    cases hp : req.follow_links with
    | none =>
      simp only [follow_links_of, Option.getD_none]
      simp only [decide_eq_false_iff_not]
      constructor
      · intro hx
        exact absurd (by decide) hx
      · rintro ⟨s', hs', -⟩
        exact absurd hs' (by simp)
    | some s =>
      simp only [follow_links_of, Option.getD_some, decide_eq_false_iff_not]
      constructor
      · exact fun hx => ⟨s, rfl, hx⟩
      · rintro ⟨s', hs', hx⟩
        injection hs' with hs''
        subst hs''
        exact hx
  refine ⟨?_, ?_, by decide, by decide, by decide, by decide, by decide⟩
  · cases hfl : follow_links_of req.follow_links with
    | false => exact Or.inl ⟨_, hflat hfl⟩
    | true =>
      obtain ⟨l, e, he⟩ := hfull hfl
      exact Or.inr ⟨_, l, e, _, he⟩
  · constructor
    · rintro ⟨rs, hrs⟩
      cases hfl : follow_links_of req.follow_links with
      | false => exact hiff.mp hfl
      | true =>
        obtain ⟨l, e, he⟩ := hfull hfl
        rw [hrs] at he
        exact absurd he (by simp)
    · intro hx
      exact ⟨_, hflat (hiff.mpr hx)⟩

/-- Witness for the follow_links parsing theorem at a concrete garbage
value. -/
theorem follow_links_parsing_app :
    ((⟨some "q", none, some "yes"⟩ : RetrieveRequest).text = some "q"
      ∧ ("q" : String) ≠ "" ∧ resolveTopK none none = .ok 10
      ∧ embedC "q" = some 0) ∧
    ((∃ rs, retrieve_db embedC queryC none enumC ⟨some "q", none, some "yes"⟩
        = .flat rs)
      ↔ ∃ s, (⟨some "q", none, some "yes"⟩ : RetrieveRequest).follow_links
          = some s ∧ pyLower s.data ≠ "true".data) := by
  refine ⟨⟨rfl, by decide, rfl, rfl⟩, ?_⟩
  exact (follow_links_parsing embedC queryC none enumC
    ⟨some "q", none, some "yes"⟩ "q" 0 10 rfl (by decide) rfl rfl).2.1

/-- Counterexample to C4 as stated: top_k supplied as the empty string is
present, is not an integer and is not all, yet the request succeeds with
the default 10 instead of a 400. -/
theorem topk_empty_string_not_rejected :
    pyLower "".data ≠ "all".data ∧ pyToInt "".data = none ∧
    resolveTopK (some 42) (some "") = .ok 10 ∧
    retrieve_db embedC queryC (some 42) enumC ⟨some "q", some "", some "false"⟩
      = .flat [] := by
  refine ⟨by decide, by decide, rfl, by decide⟩

/-- C4 amended: missing or empty query text gives the 400 missing-text
error; an absent or empty top_k resolves to 10; all (case-insensitive)
resolves to the store's reported total count; any other non-integer
value is a 400 invalid-parameter error; the resolved count is the one
passed to the similarity search. -/
theorem topk_resolution_amended (α : Type) (embed : String → Option α)
    (query : α → Int → List Match) (stats : Option Nat)
    (enumL : Finset String → List String) (req : RetrieveRequest) :
    (req.text = none ∨ req.text = some "" →
      retrieve_db embed query stats enumL req = .err 400 "No text provided")
    ∧ resolveTopK stats none = .ok 10
    ∧ resolveTopK stats (some "") = .ok 10
    ∧ (∀ (s : String) (nn : Nat), pyLower s.data = "all".data →
        stats = some nn → resolveTopK stats (some s) = .ok nn)
    ∧ (∀ s : String, s ≠ "" → pyLower s.data ≠ "all".data →
        pyToInt s.data = none →
        resolveTopK stats (some s) = .error "Invalid top_k parameter")
    ∧ (∀ (t : String) (msg : String), req.text = some t → t ≠ "" →
        resolveTopK stats req.top_k = .error msg →
        retrieve_db embed query stats enumL req = .err 400 msg)
    ∧ (∀ (t : String) (v : α) (k : Int), req.text = some t → t ≠ "" →
        embed t = some v → resolveTopK stats req.top_k = .ok k →
        retrieve_db embed query stats enumL req
            = .flat ((query v k).map tagPrimary)
          ∨ ∃ l e, retrieve_db embed query stats enumL req
            = .full ((query v k).map tagPrimary) l e hintText) := by
  refine ⟨?_, rfl, by simp [resolveTopK], ?_, ?_, ?_, ?_⟩
  · rintro (hx | hx) <;> simp [retrieve_db, hx]
  · intro s nn hall hstats
    have hs : s ≠ "" := by
      rintro rfl
      exact absurd hall (by decide)
    simp [resolveTopK, hs, hall, hstats]
  · intro s hne hnall hparse
    simp [resolveTopK, hne, hnall, hparse]
  · intro t msg h1 h2 h3
    simp [retrieve_db, h1, h2, h3]
  · intro t v k h1 h2 h4 h3
    obtain ⟨hflat, hfull⟩ :=
      retrieve_shape embed query stats enumL req t v k h1 h2 h3 h4
    cases hfl : follow_links_of req.follow_links with
    | false => exact Or.inl (hflat hfl)
    | true => exact Or.inr (hfull hfl)

/-- Witness for the amended top_k theorem: all resolves to the reported
count, a garbage value is a 400. -/
theorem topk_resolution_amended_app :
    (pyLower "ALL".data = "all".data ∧ resolveTopK (some 42) (some "ALL") = .ok 42)
    ∧ (pyToInt "abc".data = none ∧
      retrieve_db embedC queryC (some 42) enumC ⟨some "q", some "abc", none⟩
        = .err 400 "Invalid top_k parameter") := by
  refine ⟨⟨by decide, ?_⟩, ⟨by decide, ?_⟩⟩
  · exact (topk_resolution_amended Nat embedC queryC (some 42) enumC
      ⟨some "q", some "ALL", none⟩).2.2.2.1 "ALL" 42 (by decide) rfl
  · refine (topk_resolution_amended Nat embedC queryC (some 42) enumC
      ⟨some "q", some "abc", none⟩).2.2.2.2.2.1 "q" "Invalid top_k parameter"
      rfl (by decide) ?_
    exact (topk_resolution_amended Nat embedC queryC (some 42) enumC
      ⟨some "q", some "abc", none⟩).2.2.2.2.1 "abc" (by decide) (by decide)
      (by decide)

/-- Counterexample to C6 as stated: the text with three opening brackets
contains a substring of the claimed marker form with name A, but the
extractor, following the leftmost non-overlapping matches of findall,
returns only the bracketed name and misses A. -/
theorem extract_overlapping_marker_missed :
    ("[[[A]]".data
        = "[".data ++ ('[' :: '[' :: ("A".data ++ ']' :: ']' :: ([] : List Char)))
      ∧ "A".data ≠ [] ∧ (∀ c ∈ "A".data, nameChar c = true)
      ∧ String.mk (stripChars "A".data) = "A")
    ∧ "A" ∉ extract_obsidian_links "[[[A]]"
    ∧ extract_obsidian_links "[[[A]]" = {"[A"} := by
  refine ⟨⟨by decide, by decide, by decide, by decide⟩, by decide, by decide⟩

/-- C6 amended: every extracted identifier is the stripped name of a
marker substring of the pattern's form (names nonempty, free of closing
brackets and pipes), though when markers overlap only the leftmost
non-overlapping matches are reported; the concrete examples hold. -/
theorem extract_links_sound_and_examples :
    (∀ text nm : String, nm ∈ extract_obsidian_links text →
      ∃ raw pre post, nm = String.mk (stripChars raw) ∧ raw ≠ [] ∧
        (∀ c ∈ raw, nameChar c = true) ∧ MarkerAt text.data pre raw post)
    ∧ extract_obsidian_links "[[Alpha]] and [[Beta|Alias]]" = {"Alpha", "Beta"}
    ∧ extract_obsidian_links "[[ Gamma ]]" = {"Gamma"} :=
  ⟨extract_mem_sound, by decide, by decide⟩

/-- Witness for the soundness direction at a concrete extraction. -/
theorem extract_links_sound_and_examples_app :
    ("Alpha" ∈ extract_obsidian_links "[[Alpha]]") ∧
    ∃ raw pre post, ("Alpha" : String) = String.mk (stripChars raw) ∧ raw ≠ [] ∧
      (∀ c ∈ raw, nameChar c = true) ∧ MarkerAt "[[Alpha]]".data pre raw post := by
  refine ⟨by decide, ?_⟩
  exact extract_links_sound_and_examples.1 "[[Alpha]]" "Alpha" (by decide)

/-- C7: on any text without a wiki-link marker the extractor returns the
empty set, and it is deterministic — the same text always yields the
same set. -/
theorem extract_no_marker_empty_and_det :
    (∀ text : String, ¬ HasMarker text.data → extract_obsidian_links text = ∅)
    ∧ ∀ text : String, extract_obsidian_links text = extract_obsidian_links text := by
  refine ⟨fun text hnm => ?_, fun _ => rfl⟩
  by_contra hne
  obtain ⟨nm, hnm'⟩ := Finset.nonempty_iff_ne_empty.mpr hne
  obtain ⟨raw, pre, post, -, h1, h2, hm⟩ := extract_mem_sound text nm hnm'
  exact hnm ⟨pre, raw, post, h1, h2, hm⟩

/-- Witness for the no-marker theorem on a concrete marker-free text. -/
theorem extract_no_marker_empty_and_det_app :
    ¬ HasMarker "plain text".data ∧ extract_obsidian_links "plain text" = ∅ := by
  have hnb : ('[' : Char) ∉ "plain text".data := by decide
  exact ⟨no_bracket_no_marker _ hnb,
    extract_no_marker_empty_and_det.1 "plain text" (no_bracket_no_marker _ hnb)⟩
